import Mathlib

/-!
Verification of a minimal TCP key-value server (redis-from-scratch).

The development shallowly embeds the server core from
`src/multithreading/asyncio.cpp`, the shared constants from
`src/utils/utils.h`, and the synchronous client's payload builder and
response validation from `src/client.cpp`.

Bytes are modelled as natural numbers (values below 256 where it
matters); byte strings are lists of bytes; the 32-bit framing integers
are laid out in little-endian order, matching the host byte order the
C++ code relies on via memcpy. The store, an unordered map from byte
string to byte string, is modelled as an association list whose
operations implement the same abstract map: lookup finds the binding,
set replaces or inserts, del removes the binding and reports whether it
existed.
-/

namespace RedisKV

/-- A byte string: the contents of a std::string or a uint8_t buffer. -/
abbrev Str := List Nat

/-- Maximum allowed message size for framed protocol payloads
(`k_max_msg` in utils.h). -/
def k_max_msg : Nat := 4096

/-- Status code for a missing key (`ResponseStatus::RES_NX`). -/
def RES_NX : Nat := 1

/-- Generic error status (`ResponseStatus::RES_ERR`): uint32_t cast of -1,
all ones. -/
def RES_ERR : Nat := 2 ^ 32 - 1

/-- The four bytes a u32 value occupies in memory, least significant
first: what `memcpy(raw, &v, 4)` produces on the little-endian host. -/
def u32Bytes (v : Nat) : List Nat :=
  [v % 256, v / 256 % 256, v / 65536 % 256, v / 16777216 % 256]

/-- `readU32` from asyncio.cpp: succeeds exactly when four bytes remain,
consuming them and assembling the host-order (little-endian) value. -/
def readU32 : List Nat → Option (Nat × List Nat)
  | b0 :: b1 :: b2 :: b3 :: rest =>
      some (b0 + 256 * b1 + 65536 * b2 + 16777216 * b3, rest)
  | _ => none

/-- `readStr` from asyncio.cpp: succeeds exactly when at least `n` bytes
remain (`cur + n > end` is the failure test), consuming them. -/
def readStr (l : List Nat) (n : Nat) : Option (Str × List Nat) :=
  if n ≤ l.length then some (l.take n, l.drop n) else none

/-- The KVStore's backing map (`std::unordered_map` keyed by string),
modelled as an association list with at most one live binding per key. -/
abbrev KVStore := List (Str × Str)

/-- `KVStore::get`: look the key up; report absence or produce the value. -/
def KVStore.get : KVStore → Str → Option Str
  | [], _ => none
  | (k, v) :: rest, key => if k = key then some v else KVStore.get rest key

/-- `KVStore::set`: `data[key] = value` — overwrite the binding if present,
insert it otherwise. -/
def KVStore.set : KVStore → Str → Str → KVStore
  | [], key, value => [(key, value)]
  | (k, v) :: rest, key, value =>
      if k = key then (key, value) :: rest else (k, v) :: KVStore.set rest key value

/-- `KVStore::del`: `data.erase(key) > 0` — remove the binding for the key
and report whether it was present. -/
def KVStore.del (s : KVStore) (key : Str) : KVStore × Bool :=
  (s.filter (fun p => decide (p.1 ≠ key)), (KVStore.get s key).isSome)

/-- The bytes of the literal "get". -/
def strGet : Str := [103, 101, 116]

/-- The bytes of the literal "set". -/
def strSet : Str := [115, 101, 116]

/-- The bytes of the literal "del". -/
def strDel : Str := [100, 101, 108]

/-- A response before serialization: a status code and a payload. -/
structure Response where
  status : Nat
  data : Str
deriving DecidableEq

/-- The command-dispatch section of `Connection::tryOneRequest`
(asyncio.cpp lines 172-190): match on argument count and verb, run the
store operation, and produce status and payload. The if-chain of the
source tests in order size 2 + "get", size 3 + "set", size 2 + "del",
else the generic error. -/
def execCommand (store : KVStore) (cmd : List Str) : KVStore × Response :=
  match cmd with
  | [c, k] =>
      if c = strGet then
        match KVStore.get store k with
        | some v => (store, ⟨0, v⟩)
        | none => (store, ⟨RES_NX, []⟩)
      else if c = strDel then
        ((KVStore.del store k).1, ⟨0, []⟩)
      else
        (store, ⟨RES_ERR, []⟩)
  | [c, k, v] =>
      if c = strSet then
        (KVStore.set store k v, ⟨0, []⟩)
      else
        (store, ⟨RES_ERR, []⟩)
  | _ => (store, ⟨RES_ERR, []⟩)

/-- `recognized cmd` holds exactly when `cmd` takes one of the three
dispatch shapes of `Connection::tryOneRequest`. -/
def recognized (cmd : List Str) : Bool :=
  match cmd with
  | [c, _] => decide (c = strGet) || decide (c = strDel)
  | [c, _, _] => decide (c = strSet)
  | _ => false

-- ===== store lemmas =====

theorem KVStore.get_set_same (s : KVStore) (k v : Str) :
    KVStore.get (KVStore.set s k v) k = some v := by
  induction s with
  | nil => simp [KVStore.get, KVStore.set]
  | cons p rest ih =>
      by_cases h : p.1 = k
      · simp [KVStore.get, KVStore.set, h]
      · simp [KVStore.get, KVStore.set, h, ih]

theorem KVStore.get_del_same (s : KVStore) (k : Str) :
    KVStore.get (KVStore.del s k).1 k = none := by
  induction s with
  | nil => simp [KVStore.get, KVStore.del]
  | cons p rest ih =>
      by_cases h : p.1 = k
      · simpa [KVStore.del, List.filter_cons, h] using ih
      · simpa [KVStore.del, List.filter_cons, h, KVStore.get] using ih

-- ===== request parsing and framing =====

/-- `Connection::parseRequest` (asyncio.cpp lines 217-236), the per-string
loop: for each of `n` strings read a u32 length then that many bytes. -/
def parseStrings : Nat → List Nat → Option (List Str × List Nat)
  | 0, l => some ([], l)
  | n + 1, l =>
      match readU32 l with
      | none => none
      | some (slen, rest) =>
          match readStr rest slen with
          | none => none
          | some (s, rest2) =>
              match parseStrings n rest2 with
              | none => none
              | some (ss, rest3) => some (s :: ss, rest3)

/-- `Connection::parseRequest`: a u32 string count capped by `k_max_msg`
(the safety limit of line 223), then the strings, then the trailing-bytes
check `cur != end`. -/
def parseRequest (body : List Nat) : Option (List Str) :=
  match readU32 body with
  | none => none
  | some (nstr, rest) =>
      if k_max_msg < nstr then none
      else
        match parseStrings nstr rest with
        | none => none
        | some (cmd, rest2) => if rest2 = [] then some cmd else none

/-- Per-connection state: the two byte buffers and the three interest
flags of the `Connection` class. The descriptor number plays no role in
the buffer/protocol logic and is omitted. -/
structure Connection where
  incoming : List Nat
  outgoing : List Nat
  want_read : Bool
  want_write : Bool
  want_close : Bool
deriving DecidableEq

/-- `Connection::Connection(fd)`: empty buffers, wants-read true,
wants-write false, wants-close false. -/
def Connection.init : Connection := ⟨[], [], true, false, false⟩

/-- `Connection::appendResponse`: header u32 of `4 + data.size()`, then
the u32 status, then the payload bytes, appended to the outgoing buffer. -/
def appendResponse (outgoing : List Nat) (status : Nat) (data : Str) : List Nat :=
  outgoing ++ u32Bytes (4 + data.length) ++ u32Bytes status ++ data

/-- `Connection::tryOneRequest` (asyncio.cpp lines 149-197). Returns the
updated connection and store plus the C++ boolean result: `true` means a
frame was consumed and the loop in `handleReadable` continues. `readU32`
failing on the buffer is exactly the `incoming_.size() < 4` wait case;
`bufConsume` of `4 + len` is `List.drop`, which like the C++ helper
clears the buffer when the count reaches or passes its size. -/
def tryOneRequest (conn : Connection) (store : KVStore) : Connection × KVStore × Bool :=
  match readU32 conn.incoming with
  | none => (conn, store, false)
  | some (len, restAfterLen) =>
      if k_max_msg < len then
        ({ conn with want_close := true }, store, false)
      else if restAfterLen.length < len then
        (conn, store, false)
      else
        match parseRequest (restAfterLen.take len) with
        | none =>
            ({ conn with want_close := true,
                         incoming := conn.incoming.drop (4 + len) }, store, false)
        | some cmd =>
            let res := execCommand store cmd
            ({ conn with outgoing := appendResponse conn.outgoing res.2.status res.2.data,
                         incoming := conn.incoming.drop (4 + len) }, res.1, true)

/-- The `while (tryOneRequest(store))` loop of `Connection::handleReadable`,
with explicit fuel. Each successful iteration consumes at least four
bytes of the incoming buffer, so fuel equal to the buffer length never
cuts the loop short. -/
def processLoop : Nat → Connection → KVStore → Connection × KVStore
  | 0, conn, store => (conn, store)
  | fuel + 1, conn, store =>
      let res := tryOneRequest conn store
      if res.2.2 then processLoop fuel res.1 res.2.1 else (res.1, res.2.1)

/-- Outcome of the one `::read` call in `Connection::handleReadable`:
would-block, a hard error, or the bytes delivered (empty meaning the
peer closed). -/
inductive ReadResult where
  | wouldBlock : ReadResult
  | readErr : ReadResult
  | bytes : List Nat → ReadResult

/-- Outcome of the one `::write` call in `Connection::handleWritable`:
would-block, a hard error, or the count of bytes accepted by the kernel. -/
inductive WriteResult where
  | wouldBlock : WriteResult
  | writeErr : WriteResult
  | wrote : Nat → WriteResult

/-- `Connection::handleWritable` (asyncio.cpp lines 126-147). -/
def handleWritable (conn : Connection) (w : WriteResult) : Connection :=
  if conn.outgoing = [] then
    { conn with want_write := false, want_read := true }
  else
    match w with
    | .wouldBlock => conn
    | .writeErr => { conn with want_close := true }
    | .wrote n =>
        let conn1 := { conn with outgoing := conn.outgoing.drop n }
        if conn1.outgoing = [] then
          { conn1 with want_write := false, want_read := true }
        else
          conn1

/-- `Connection::handleReadable` (asyncio.cpp lines 93-124): one read,
then the request loop, then — if output is pending — the switch to
writing and the opportunistic immediate flush. Both the rv<0 non-EAGAIN
case and the rv==0 peer-close case set wants-close and return. -/
def handleReadable (conn : Connection) (store : KVStore) (r : ReadResult)
    (w : WriteResult) : Connection × KVStore :=
  match r with
  | .wouldBlock => (conn, store)
  | .readErr => ({ conn with want_close := true }, store)
  | .bytes data =>
      if data = [] then
        ({ conn with want_close := true }, store)
      else
        let conn1 := { conn with incoming := conn.incoming ++ data }
        let res := processLoop conn1.incoming.length conn1 store
        if res.1.outgoing = [] then res
        else
          (handleWritable { res.1 with want_read := false, want_write := true } w, res.2)

-- ===== the synchronous client (client.cpp) =====

/-- The per-string body of `build_payload`: each string written as a u32
length then its bytes. -/
def encodeStrings : List Str → List Nat
  | [] => []
  | s :: rest => u32Bytes s.length ++ s ++ encodeStrings rest

/-- The size pre-check loop of `build_payload` (client.cpp lines 28-33):
`estimated` starts at 4 for the string count, each string adds 4 plus its
size, and the build fails if any string exceeds `k_max_msg` or the
running total does. -/
def payloadFits : List Str → Nat → Bool
  | [], _ => true
  | s :: rest, acc =>
      if k_max_msg < s.length then false
      else if k_max_msg < acc + 4 + s.length then false
      else payloadFits rest (acc + 4 + s.length)

/-- `build_payload` (client.cpp lines 25-43): the size pre-check, then a
u32 string count followed by the length-prefixed strings. -/
def build_payload (cmd : List Str) : Option (List Nat) :=
  if payloadFits cmd 4 then some (u32Bytes cmd.length ++ encodeStrings cmd) else none

/-- The response-length validation of `send_command` (client.cpp line 93):
reject `rlen > k_max_msg || rlen < 4`. -/
def clientAcceptsLen (rlen : Nat) : Bool :=
  !(decide (k_max_msg < rlen) || decide (rlen < 4))

/-- The wire form of a request frame carrying `body`: u32 length prefix
then the body. -/
def reqFrame (body : List Nat) : List Nat := u32Bytes body.length ++ body

/-- The wire form of one serialized response, as laid down by
`Connection::appendResponse`. -/
def respFrame (r : Response) : List Nat :=
  u32Bytes (4 + r.data.length) ++ u32Bytes r.status ++ r.data

/-- A request body the server accepts: it fits under the frame-length
bound and parses. -/
def GoodBody (body : List Nat) : Prop :=
  body.length ≤ k_max_msg ∧ (parseRequest body).isSome = true

instance (body : List Nat) : Decidable (GoodBody body) := by
  unfold GoodBody; infer_instance

/-- The expected effect of dispatching a sequence of request bodies in
order against the store: the final store and the per-request responses,
first request first. -/
def runBodies : KVStore → List (List Nat) → KVStore × List Response
  | store, [] => (store, [])
  | store, b :: rest =>
      match parseRequest b with
      | none => (store, [])
      | some cmd =>
          let res := execCommand store cmd
          let tail := runBodies res.1 rest
          (tail.1, res.2 :: tail.2)

/-- Every value held in the store is small enough that a response
carrying it stays within `k_max_msg`: payload length at most
`k_max_msg - 4`. -/
def ValuesLE (store : KVStore) : Prop :=
  ∀ p ∈ store, p.2.length + 4 ≤ k_max_msg

instance (store : KVStore) : Decidable (ValuesLE store) := by
  unfold ValuesLE; infer_instance

/-- The §3 invariant: a connection never wants to read and write at the
same instant. -/
def FlagsExclusive (conn : Connection) : Prop :=
  ¬(conn.want_read = true ∧ conn.want_write = true)

instance (conn : Connection) : Decidable (FlagsExclusive conn) := by
  unfold FlagsExclusive; infer_instance

-- ===== u32 codec lemmas =====

theorem u32Bytes_length (v : Nat) : (u32Bytes v).length = 4 := rfl

theorem readU32_u32Bytes (v : Nat) (rest : List Nat) (h : v < 2 ^ 32) :
    readU32 (u32Bytes v ++ rest) = some (v, rest) := by
  simp only [u32Bytes, List.cons_append, List.nil_append, readU32,
    Option.some.injEq, Prod.mk.injEq]
  exact ⟨by omega, trivial⟩

theorem u32Bytes_of_digits (b0 b1 b2 b3 : Nat)
    (h0 : b0 < 256) (h1 : b1 < 256) (h2 : b2 < 256) (h3 : b3 < 256) :
    u32Bytes (b0 + 256 * b1 + 65536 * b2 + 16777216 * b3) = [b0, b1, b2, b3] := by
  simp only [u32Bytes, List.cons.injEq, and_true]
  refine ⟨by omega, by omega, by omega, by omega⟩

-- ===== tryOneRequest shape lemmas =====

theorem frame_drop (len : Nat) (body rest : List Nat) (hlen : body.length = len) :
    (u32Bytes len ++ (body ++ rest)).drop (4 + len) = rest := by
  have hl : (u32Bytes len ++ body).length = 4 + len := by
    rw [List.length_append, u32Bytes_length, hlen]
  rw [← List.append_assoc, ← hl, List.drop_left]

theorem tryOneRequest_success (conn : Connection) (store : KVStore) (len : Nat)
    (body rest : List Nat) (cmd : List Str)
    (hin : conn.incoming = u32Bytes len ++ (body ++ rest))
    (hlen : body.length = len) (hmax : len ≤ k_max_msg)
    (hp : parseRequest body = some cmd) :
    tryOneRequest conn store =
      ({ conn with
          incoming := rest,
          outgoing := appendResponse conn.outgoing (execCommand store cmd).2.status
            (execCommand store cmd).2.data },
        (execCommand store cmd).1, true) := by
  have hv : len < 2 ^ 32 := lt_of_le_of_lt hmax (by norm_num [k_max_msg])
  have h1 : ¬ k_max_msg < len := not_lt.mpr hmax
  have h2 : ¬ (body ++ rest).length < len := by
    simp [List.length_append, hlen]
  have h3 : (body ++ rest).take len = body := by
    rw [← hlen]; exact List.take_left body rest
  have h4 := frame_drop len body rest hlen
  obtain ⟨inc, outg, wr, ww, wc⟩ := conn
  simp only [Connection.mk.injEq] at hin ⊢
  subst hin
  simp only [tryOneRequest, readU32_u32Bytes _ _ hv, h1, if_false, h2, h3, hp, h4]

theorem tryOneRequest_parse_fail (conn : Connection) (store : KVStore) (len : Nat)
    (body rest : List Nat)
    (hin : conn.incoming = u32Bytes len ++ (body ++ rest))
    (hlen : body.length = len) (hmax : len ≤ k_max_msg)
    (hp : parseRequest body = none) :
    tryOneRequest conn store =
      ({ conn with want_close := true, incoming := rest }, store, false) := by
  have hv : len < 2 ^ 32 := lt_of_le_of_lt hmax (by norm_num [k_max_msg])
  have h1 : ¬ k_max_msg < len := not_lt.mpr hmax
  have h2 : ¬ (body ++ rest).length < len := by
    simp [List.length_append, hlen]
  have h3 : (body ++ rest).take len = body := by
    rw [← hlen]; exact List.take_left body rest
  have h4 := frame_drop len body rest hlen
  obtain ⟨inc, outg, wr, ww, wc⟩ := conn
  simp only [Connection.mk.injEq] at hin ⊢
  subst hin
  simp only [tryOneRequest, readU32_u32Bytes _ _ hv, h1, if_false, h2, h3, hp, h4]

theorem tryOneRequest_oversize (conn : Connection) (store : KVStore) (len : Nat)
    (rest : List Nat)
    (hin : conn.incoming = u32Bytes len ++ rest)
    (hmax : k_max_msg < len) (hv : len < 2 ^ 32) :
    tryOneRequest conn store = ({ conn with want_close := true }, store, false) := by
  obtain ⟨inc, outg, wr, ww, wc⟩ := conn
  simp only [Connection.mk.injEq] at hin ⊢
  subst hin
  simp only [tryOneRequest, readU32_u32Bytes _ _ hv, hmax, if_true]

theorem tryOneRequest_flags (conn : Connection) (store : KVStore) :
    (tryOneRequest conn store).1.want_read = conn.want_read ∧
    (tryOneRequest conn store).1.want_write = conn.want_write := by
  unfold tryOneRequest
  cases readU32 conn.incoming with
  | none => exact ⟨rfl, rfl⟩
  | some p =>
      obtain ⟨len, rest⟩ := p
      by_cases h1 : k_max_msg < len
      · simp [h1]
      · by_cases h2 : rest.length < len
        · simp [h1, h2]
        · rcases h3 : parseRequest (rest.take len) with _ | cmd <;> simp [h1, h2, h3]

-- ===== parsing lemmas =====

theorem readU32_some_length (l : List Nat) (v : Nat) (rest : List Nat)
    (h : readU32 l = some (v, rest)) : l.length = 4 + rest.length := by
  rcases l with _ | ⟨b0, _ | ⟨b1, _ | ⟨b2, _ | ⟨b3, r⟩⟩⟩⟩ <;> simp [readU32] at h
  obtain ⟨-, h2⟩ := h
  subst h2
  simp [List.length_cons]
  omega

theorem readStr_some (l : List Nat) (n : Nat) (s : Str) (rest : List Nat)
    (h : readStr l n = some (s, rest)) :
    s.length = n ∧ n + rest.length = l.length ∧ s ++ rest = l := by
  unfold readStr at h
  by_cases hc : n ≤ l.length
  · rw [if_pos hc] at h
    simp only [Option.some.injEq, Prod.mk.injEq] at h
    obtain ⟨h1, h2⟩ := h
    subst h1
    subst h2
    refine ⟨?_, ?_, List.take_append_drop n l⟩
    · simp [List.length_take]; omega
    · simp [List.length_drop]; omega
  · rw [if_neg hc] at h
    simp at h

theorem parseRequest_big_count (nstr : Nat) (rest : List Nat)
    (hmax : k_max_msg < nstr) (hv : nstr < 2 ^ 32) :
    parseRequest (u32Bytes nstr ++ rest) = none := by
  simp only [parseRequest, readU32_u32Bytes _ _ hv, hmax, if_true]

theorem parseStrings_strbound (n : Nat) (l : List Nat) (ss : List Str) (rest : List Nat)
    (h : parseStrings n l = some (ss, rest)) : ∀ s ∈ ss, 4 + s.length ≤ l.length := by
  induction n generalizing l ss rest with
  | zero =>
      simp only [parseStrings, Option.some.injEq, Prod.mk.injEq] at h
      obtain ⟨h1, -⟩ := h
      subst h1
      simp
  | succ n ih =>
      simp only [parseStrings] at h
      cases hU : readU32 l with
      | none => rw [hU] at h; simp at h
      | some p =>
          obtain ⟨slen, r1⟩ := p
          simp only [hU] at h
          cases hS : readStr r1 slen with
          | none => simp [hS] at h
          | some q =>
              obtain ⟨s, r2⟩ := q
              simp only [hS] at h
              cases hP : parseStrings n r2 with
              | none => simp [hP] at h
              | some w =>
                  obtain ⟨ss2, r3⟩ := w
                  simp only [hP] at h
                  simp only [Option.some.injEq, Prod.mk.injEq] at h
                  obtain ⟨hss, -⟩ := h
                  subst hss
                  have hL := readU32_some_length l slen r1 hU
                  obtain ⟨hs1, hs2, -⟩ := readStr_some r1 slen s r2 hS
                  intro x hx
                  rcases List.mem_cons.mp hx with hx | hx
                  · subst hx; omega
                  · have := ih r2 ss2 r3 hP x hx
                    omega

theorem parseRequest_strbound (body : List Nat) (cmd : List Str)
    (h : parseRequest body = some cmd) : ∀ s ∈ cmd, 8 + s.length ≤ body.length := by
  unfold parseRequest at h
  cases hU : readU32 body with
  | none => rw [hU] at h; simp at h
  | some p =>
      obtain ⟨nstr, rest⟩ := p
      simp only [hU] at h
      by_cases hn : k_max_msg < nstr
      · rw [if_pos hn] at h; simp at h
      · rw [if_neg hn] at h
        cases hP : parseStrings nstr rest with
        | none => simp [hP] at h
        | some w =>
            obtain ⟨ss, rest2⟩ := w
            simp only [hP] at h
            by_cases he : rest2 = ([] : List Nat)
            · rw [if_pos he] at h
              simp only [Option.some.injEq] at h
              subst h
              have hL := readU32_some_length body nstr rest hU
              intro s hs
              have := parseStrings_strbound nstr rest ss rest2 hP s hs
              omega
            · rw [if_neg he] at h; simp at h

theorem processLoop_flags (fuel : Nat) (conn : Connection) (store : KVStore) :
    (processLoop fuel conn store).1.want_read = conn.want_read ∧
    (processLoop fuel conn store).1.want_write = conn.want_write := by
  induction fuel generalizing conn store with
  | zero => exact ⟨rfl, rfl⟩
  | succ fuel ih =>
      unfold processLoop
      obtain ⟨hr, hw⟩ := tryOneRequest_flags conn store
      by_cases h : (tryOneRequest conn store).2.2
      · obtain ⟨hr2, hw2⟩ := ih (tryOneRequest conn store).1 (tryOneRequest conn store).2.1
        simp [h, hr2, hw2, hr, hw]
      · simp [h, hr, hw]

-- ===== store membership lemmas =====

theorem KVStore.get_mem (s : KVStore) (k v : Str) (h : KVStore.get s k = some v) :
    ∃ p ∈ s, p.2 = v := by
  induction s with
  | nil => simp [KVStore.get] at h
  | cons q rest ih =>
      obtain ⟨qk, qv⟩ := q
      simp only [KVStore.get] at h
      by_cases hk : qk = k
      · rw [if_pos hk] at h
        simp only [Option.some.injEq] at h
        exact ⟨(qk, qv), by simp, h⟩
      · rw [if_neg hk] at h
        obtain ⟨p, hp1, hp2⟩ := ih h
        exact ⟨p, by simp [hp1], hp2⟩

theorem KVStore.mem_set (s : KVStore) (k v : Str) (p : Str × Str)
    (h : p ∈ KVStore.set s k v) : p = (k, v) ∨ p ∈ s := by
  induction s with
  | nil => simpa [KVStore.set] using h
  | cons q rest ih =>
      obtain ⟨qk, qv⟩ := q
      simp only [KVStore.set] at h
      by_cases hk : qk = k
      · rw [if_pos hk] at h
        rcases List.mem_cons.mp h with h | h
        · exact Or.inl h
        · exact Or.inr (List.mem_cons_of_mem _ h)
      · rw [if_neg hk] at h
        rcases List.mem_cons.mp h with h | h
        · exact Or.inr (by simp [h])
        · rcases ih h with h | h
          · exact Or.inl h
          · exact Or.inr (List.mem_cons_of_mem _ h)

theorem KVStore.mem_del (s : KVStore) (k : Str) (p : Str × Str)
    (h : p ∈ (KVStore.del s k).1) : p ∈ s :=
  List.mem_of_mem_filter h

theorem exec_preserves_values (store : KVStore) (cmd : List Str)
    (hst : ValuesLE store) (hcmd : ∀ s ∈ cmd, 8 + s.length ≤ k_max_msg) :
    ValuesLE (execCommand store cmd).1 ∧
    (execCommand store cmd).2.data.length + 4 ≤ k_max_msg := by
  have hkm : (4 : Nat) ≤ k_max_msg := by norm_num [k_max_msg]
  rcases cmd with _ | ⟨c, _ | ⟨k, _ | ⟨v, _ | ⟨w, tl⟩⟩⟩⟩
  · exact ⟨hst, by simpa [execCommand] using hkm⟩
  · exact ⟨hst, by simpa [execCommand] using hkm⟩
  · by_cases hg : c = strGet
    · cases hget : KVStore.get store k with
      | none => exact ⟨by simpa [execCommand, hg, hget] using hst,
          by simpa [execCommand, hg, hget] using hkm⟩
      | some v =>
          refine ⟨by simpa [execCommand, hg, hget] using hst, ?_⟩
          obtain ⟨p, hp1, hp2⟩ := KVStore.get_mem store k v hget
          have hpv := hst p hp1
          subst hp2
          simpa [execCommand, hg, hget] using hpv
    · by_cases hd : c = strDel
      · refine ⟨?_, by simpa [execCommand, hg, hd, strDel, strGet] using hkm⟩
        intro p hp
        simp [execCommand, hg, hd, strDel, strGet] at hp
        exact hst p (KVStore.mem_del store k p hp)
      · exact ⟨by simpa [execCommand, hg, hd] using hst,
          by simpa [execCommand, hg, hd] using hkm⟩
  · by_cases hs : c = strSet
    · refine ⟨?_, by simpa [execCommand, hs] using hkm⟩
      intro p hp
      simp [execCommand, hs] at hp
      rcases KVStore.mem_set store k v p hp with h | h
      · have hv := hcmd v (by simp)
        subst h
        show v.length + 4 ≤ k_max_msg
        omega
      · exact hst p h
    · exact ⟨by simpa [execCommand, hs] using hst,
        by simpa [execCommand, hs] using hkm⟩
  · exact ⟨hst, by simpa [execCommand] using hkm⟩

-- ===== request-loop lemmas =====

theorem runBodies_length (store : KVStore) (bodies : List (List Nat))
    (hg : ∀ b ∈ bodies, (parseRequest b).isSome = true) :
    (runBodies store bodies).2.length = bodies.length := by
  induction bodies generalizing store with
  | nil => rfl
  | cons b rest ih =>
      obtain ⟨cmd, hcmd⟩ := Option.isSome_iff_exists.mp (hg b (by simp))
      simp [runBodies, hcmd, ih (execCommand store cmd).1 (fun x hx => hg x (by simp [hx]))]

theorem reqFrames_length_ge (bodies : List (List Nat)) :
    bodies.length ≤ ((bodies.map reqFrame).flatten).length := by
  induction bodies with
  | nil => simp
  | cons b rest ih =>
      simp only [List.map_cons, List.flatten_cons, List.length_append, List.length_cons,
        reqFrame, u32Bytes_length]
      omega

theorem processLoop_runBodies (bodies : List (List Nat)) (fuel : Nat)
    (conn : Connection) (store : KVStore)
    (hg : ∀ b ∈ bodies, GoodBody b)
    (hin : conn.incoming = (bodies.map reqFrame).flatten)
    (hfuel : bodies.length ≤ fuel) :
    processLoop fuel conn store =
      ({ conn with
          incoming := [],
          outgoing := conn.outgoing ++ ((runBodies store bodies).2.map respFrame).flatten },
        (runBodies store bodies).1) := by
  induction bodies generalizing fuel conn store with
  | nil =>
      simp only [List.map_nil, List.flatten_nil] at hin
      obtain ⟨inc, outg, wr, ww, wc⟩ := conn
      simp only at hin
      subst hin
      have ht : tryOneRequest ⟨[], outg, wr, ww, wc⟩ store =
          (⟨[], outg, wr, ww, wc⟩, store, false) := rfl
      cases fuel with
      | zero => simp [processLoop, runBodies]
      | succ fuel => simp [processLoop, ht, runBodies]
  | cons b rest ih =>
      obtain ⟨hb1, hb2⟩ := hg b (by simp)
      obtain ⟨cmd, hcmd⟩ := Option.isSome_iff_exists.mp hb2
      cases fuel with
      | zero => simp at hfuel
      | succ fuel =>
          have hin2 : conn.incoming =
              u32Bytes b.length ++ (b ++ (rest.map reqFrame).flatten) := by
            simp [hin, reqFrame, List.append_assoc]
          have ht := tryOneRequest_success conn store b.length b
            ((rest.map reqFrame).flatten) cmd hin2 rfl hb1 hcmd
          simp only [processLoop, ht]
          rw [ih fuel _ _ (fun x hx => hg x (by simp [hx])) rfl (by simpa using hfuel)]
          simp [runBodies, hcmd, appendResponse, respFrame, List.append_assoc]

theorem readStr_exact (s x : List Nat) : readStr (s ++ x) s.length = some (s, x) := by
  unfold readStr
  rw [if_pos (by simp)]
  rw [List.take_left, List.drop_left]

theorem parseStrings_encodeStrings (ss : List Str) (tail : List Nat)
    (h : ∀ s ∈ ss, s.length < 2 ^ 32) :
    parseStrings ss.length (encodeStrings ss ++ tail) = some (ss, tail) := by
  induction ss generalizing tail with
  | nil => simp [parseStrings, encodeStrings]
  | cons s rest ih =>
      have hs : s.length < 2 ^ 32 := h s (by simp)
      simp only [encodeStrings, List.length_cons, parseStrings, List.append_assoc,
        readU32_u32Bytes _ _ hs, readStr_exact,
        ih tail (fun x hx => h x (by simp [hx]))]

theorem encodeStrings_length_ge (ss : List Str) :
    4 * ss.length ≤ (encodeStrings ss).length := by
  induction ss with
  | nil => simp [encodeStrings]
  | cons s rest ih =>
      simp only [encodeStrings, List.length_append, u32Bytes_length, List.length_cons]
      omega

theorem payloadFits_bounds (ss : List Str) (acc : Nat) (hacc : acc ≤ k_max_msg)
    (h : payloadFits ss acc = true) :
    acc + (encodeStrings ss).length ≤ k_max_msg ∧ ∀ s ∈ ss, s.length ≤ k_max_msg := by
  induction ss generalizing acc with
  | nil =>
      refine ⟨?_, by simp⟩
      simpa [encodeStrings] using hacc
  | cons s rest ih =>
      simp only [payloadFits] at h
      by_cases h1 : k_max_msg < s.length
      · simp [h1] at h
      by_cases h2 : k_max_msg < acc + 4 + s.length
      · simp [h1, h2] at h
      rw [if_neg h1, if_neg h2] at h
      obtain ⟨ha, hb⟩ := ih (acc + 4 + s.length) (by omega) h
      refine ⟨?_, ?_⟩
      · simp only [encodeStrings, List.length_append, u32Bytes_length]
        omega
      · intro x hx
        rcases List.mem_cons.mp hx with hx | hx
        · subst hx; omega
        · exact hb x hx

theorem payloadFits_of_total (ss : List Str) (acc : Nat)
    (h : acc + (encodeStrings ss).length ≤ k_max_msg) : payloadFits ss acc = true := by
  induction ss generalizing acc with
  | nil => rfl
  | cons s rest ih =>
      simp only [encodeStrings, List.length_append, u32Bytes_length] at h
      unfold payloadFits
      rw [if_neg (by omega), if_neg (by omega)]
      exact ih (acc + 4 + s.length) (by omega)

theorem readU32_some_decomp (l : List Nat) (v : Nat) (rest : List Nat)
    (h : readU32 l = some (v, rest)) (hb : ∀ b ∈ l, b < 256) :
    l = u32Bytes v ++ rest ∧ v < 2 ^ 32 := by
  rcases l with _ | ⟨b0, _ | ⟨b1, _ | ⟨b2, _ | ⟨b3, r⟩⟩⟩⟩ <;> simp [readU32] at h
  obtain ⟨h1, h2⟩ := h
  have hb0 : b0 < 256 := hb b0 (by simp)
  have hb1 : b1 < 256 := hb b1 (by simp)
  have hb2 : b2 < 256 := hb b2 (by simp)
  have hb3 : b3 < 256 := hb b3 (by simp)
  subst h2
  constructor
  · rw [← h1, u32Bytes_of_digits b0 b1 b2 b3 hb0 hb1 hb2 hb3]
    rfl
  · omega

theorem parseStrings_bytes_encode (n : Nat) (l : List Nat) (ss : List Str)
    (rest : List Nat)
    (h : parseStrings n l = some (ss, rest)) (hb : ∀ b ∈ l, b < 256) :
    encodeStrings ss ++ rest = l ∧ ss.length = n := by
  induction n generalizing l ss rest with
  | zero =>
      simp only [parseStrings, Option.some.injEq, Prod.mk.injEq] at h
      obtain ⟨h1, h2⟩ := h
      subst h1
      subst h2
      exact ⟨rfl, rfl⟩
  | succ n ih =>
      simp only [parseStrings] at h
      cases hU : readU32 l with
      | none => rw [hU] at h; simp at h
      | some p =>
          obtain ⟨slen, r1⟩ := p
          simp only [hU] at h
          cases hS : readStr r1 slen with
          | none => simp [hS] at h
          | some q =>
              obtain ⟨s, r2⟩ := q
              simp only [hS] at h
              cases hP : parseStrings n r2 with
              | none => simp [hP] at h
              | some w =>
                  obtain ⟨ss2, r3⟩ := w
                  simp only [hP, Option.some.injEq, Prod.mk.injEq] at h
                  obtain ⟨hss, hrest⟩ := h
                  subst hss
                  subst hrest
                  obtain ⟨hdec, -⟩ := readU32_some_decomp l slen r1 hU hb
                  obtain ⟨hs1, -, hs3⟩ := readStr_some r1 slen s r2 hS
                  have hbr1 : ∀ b ∈ r1, b < 256 := by
                    intro b hb2
                    exact hb b (by rw [hdec]; exact List.mem_append_right _ hb2)
                  have hbr2 : ∀ b ∈ r2, b < 256 := by
                    intro b hb2
                    exact hbr1 b (by rw [← hs3]; exact List.mem_append_right _ hb2)
                  obtain ⟨henc, hlen2⟩ := ih r2 ss2 r3 hP hbr2
                  constructor
                  · simp only [encodeStrings, hs1, List.append_assoc]
                    rw [hdec, ← hs3, henc]
                  · simp [hlen2]


/-- C2: dispatching a `get` returns status 0 with the stored value when
the key is present, and status `RES_NX` (1) with an empty payload when it
is absent; and a `set` followed by a `get` on the same key returns
exactly the value that was set, with the store unchanged by the `get`. -/
theorem get_dispatch_correct (store : KVStore) (k v : Str) :
    (KVStore.get store k = some v →
      execCommand store [strGet, k] = (store, ⟨0, v⟩)) ∧
    (KVStore.get store k = none →
      execCommand store [strGet, k] = (store, ⟨RES_NX, []⟩)) ∧
    execCommand (execCommand store [strSet, k, v]).1 [strGet, k] =
      ((execCommand store [strSet, k, v]).1, ⟨0, v⟩) := by
  refine ⟨fun h => ?_, fun h => ?_, ?_⟩
  · simp [execCommand, h]
  · simp [execCommand, h]
  · simp [execCommand, KVStore.get_set_same]

/-- Witness for C2 at the singleton store binding key 107 to value 118
and at the empty store. -/
theorem get_dispatch_correct_witness :
    execCommand [([107], [118])] [strGet, [107]] = ([([107], [118])], ⟨0, [118]⟩) ∧
    execCommand [] [strGet, [107]] = ([], ⟨RES_NX, []⟩) :=
  ⟨(get_dispatch_correct [([107], [118])] [107] [118]).1 (by decide),
   (get_dispatch_correct [] [107] [118]).2.1 (by decide)⟩

/-- C3: dispatching a `del` always answers status 0 with an empty
payload; afterwards the key is absent (a `get` answers `RES_NX`); the
store-level delete reports whether the key existed, but the response does
not carry that bit. -/
theorem del_dispatch_correct (store : KVStore) (k : Str) :
    execCommand store [strDel, k] = ((KVStore.del store k).1, ⟨0, []⟩) ∧
    KVStore.get (KVStore.del store k).1 k = none ∧
    execCommand (KVStore.del store k).1 [strGet, k] =
      ((KVStore.del store k).1, ⟨RES_NX, []⟩) ∧
    (KVStore.del store k).2 = (KVStore.get store k).isSome := by
  refine ⟨?_, KVStore.get_del_same store k, ?_, rfl⟩
  · simp [execCommand, strDel, strGet]
  · simp [execCommand, KVStore.get_del_same]

/-- C4: a parsed command of unrecognized shape — wrong arity or unknown
verb — produces the generic error status `RES_ERR` (the all-ones u32)
with an empty payload, leaves the store unchanged, does not set
wants-close, and `tryOneRequest` still reports success so the request
loop continues with the following buffered frames. -/
theorem unknown_command_error (conn : Connection) (store : KVStore) (len : Nat)
    (body rest : List Nat) (cmd : List Str)
    (hin : conn.incoming = u32Bytes len ++ (body ++ rest))
    (hlen : body.length = len) (hmax : len ≤ k_max_msg)
    (hp : parseRequest body = some cmd) (hr : recognized cmd = false) :
    execCommand store cmd = (store, ⟨RES_ERR, []⟩) ∧
    tryOneRequest conn store =
      ({ conn with incoming := rest,
                   outgoing := appendResponse conn.outgoing RES_ERR [] }, store, true) := by
  have hexec : execCommand store cmd = (store, ⟨RES_ERR, []⟩) := by
    rcases cmd with _ | ⟨c, _ | ⟨k, _ | ⟨v, _ | ⟨w, tl⟩⟩⟩⟩
    · rfl
    · rfl
    · simp only [recognized, Bool.or_eq_false_iff, decide_eq_false_iff_not] at hr
      simp [execCommand, hr.1, hr.2]
    · simp only [recognized, decide_eq_false_iff_not] at hr
      simp [execCommand, hr]
    · rfl
  refine ⟨hexec, ?_⟩
  rw [tryOneRequest_success conn store len body rest cmd hin hlen hmax hp, hexec]

/-- Witness for C4: the spec's example `set` with a single argument,
framed as one complete request on the wire, against the empty store. -/
theorem unknown_command_error_witness :
    execCommand [] [strSet, [107]] = ([], ⟨RES_ERR, []⟩) ∧
    tryOneRequest
      ⟨u32Bytes 16 ++ ((u32Bytes 2 ++ u32Bytes 3 ++ strSet ++ u32Bytes 1 ++ [107]) ++ []),
       [], true, false, false⟩ [] =
      (⟨[], appendResponse [] RES_ERR [], true, false, false⟩, [], true) :=
  unknown_command_error
    ⟨u32Bytes 16 ++ ((u32Bytes 2 ++ u32Bytes 3 ++ strSet ++ u32Bytes 1 ++ [107]) ++ []),
     [], true, false, false⟩ [] 16
    (u32Bytes 2 ++ u32Bytes 3 ++ strSet ++ u32Bytes 1 ++ [107]) [] [strSet, [107]]
    rfl (by decide) (by decide) (by decide) (by decide)

/-- C1 (amended): a buffered frame declaring a length above `k_max_msg`
makes `tryOneRequest` set wants-close, append no response, and report
failure so no further frames are processed — but, contrary to the claim,
the incoming buffer is left exactly as it was: the oversize branch
returns before any bytes are consumed. -/
theorem oversize_frame_closes (conn : Connection) (store : KVStore) (len : Nat)
    (rest : List Nat)
    (hin : conn.incoming = u32Bytes len ++ rest)
    (hmax : k_max_msg < len) (hv : len < 2 ^ 32) :
    tryOneRequest conn store = ({ conn with want_close := true }, store, false) ∧
    ∀ fuel, processLoop (fuel + 1) conn store = ({ conn with want_close := true }, store) := by
  have h := tryOneRequest_oversize conn store len rest hin hmax hv
  refine ⟨h, fun fuel => ?_⟩
  simp only [processLoop, h]
  simp

/-- Witness for C1 (amended): a frame declaring length 4097 with eight
bytes of payload buffered behind the prefix. -/
theorem oversize_frame_closes_witness :
    tryOneRequest ⟨u32Bytes 4097 ++ List.replicate 8 0, [], true, false, false⟩ [] =
      (⟨u32Bytes 4097 ++ List.replicate 8 0, [], true, false, true⟩, [], false) ∧
    ∀ fuel, processLoop (fuel + 1)
      ⟨u32Bytes 4097 ++ List.replicate 8 0, [], true, false, false⟩ [] =
      (⟨u32Bytes 4097 ++ List.replicate 8 0, [], true, false, true⟩, []) :=
  oversize_frame_closes ⟨u32Bytes 4097 ++ List.replicate 8 0, [], true, false, false⟩
    [] 4097 (List.replicate 8 0) rfl (by decide) (by decide)

/-- C1 as stated is false on the code: with a frame declaring length 4097
(eight payload bytes buffered), the incoming buffer after `tryOneRequest`
still holds every byte, whereas dropping "the malformed frame's declared
length worth of bytes" from this 12-byte buffer would have to leave it
empty. -/
theorem oversize_frame_drop_cex :
    (tryOneRequest ⟨u32Bytes 4097 ++ List.replicate 8 0, [], true, false, false⟩ []).1.incoming
      = u32Bytes 4097 ++ List.replicate 8 0 ∧
    (u32Bytes 4097 ++ List.replicate 8 0).drop 4097 = ([] : List Nat) ∧
    u32Bytes 4097 ++ List.replicate 8 0 ≠ ([] : List Nat) := by
  decide

/-- C7: a complete frame whose body fails to parse — truncated length
prefix, string overrunning the body, or trailing bytes — makes the
connection transition to closing with nothing appended to the outgoing
buffer, and exactly the offending frame's bytes (the 4-byte prefix plus
its declared length) removed from the incoming buffer. -/
theorem malformed_body_closes (conn : Connection) (store : KVStore) (len : Nat)
    (body rest : List Nat)
    (hin : conn.incoming = u32Bytes len ++ (body ++ rest))
    (hlen : body.length = len) (hmax : len ≤ k_max_msg)
    (hp : parseRequest body = none) :
    tryOneRequest conn store =
      ({ conn with want_close := true, incoming := rest }, store, false) :=
  tryOneRequest_parse_fail conn store len body rest hin hlen hmax hp

/-- Witness for C7: a body declaring one string but ending before the
string's length prefix. -/
theorem malformed_body_closes_witness :
    tryOneRequest ⟨u32Bytes 4 ++ (u32Bytes 1 ++ []), [], true, false, false⟩ [] =
      (⟨[], [], true, false, true⟩, [], false) :=
  malformed_body_closes ⟨u32Bytes 4 ++ (u32Bytes 1 ++ []), [], true, false, false⟩
    [] 4 (u32Bytes 1) [] rfl (by decide) (by decide) (by decide)

/-- C8: the single constant `k_max_msg` = 4096 bounds three quantities:
a frame declaring a length above it closes the connection; a body
declaring a string count above it fails to parse; and no string of a
parse that the frame-length check admitted exceeds it. -/
theorem single_bound_three_ways :
    (∀ (conn : Connection) (store : KVStore) (len : Nat) (rest : List Nat),
      conn.incoming = u32Bytes len ++ rest → k_max_msg < len → len < 2 ^ 32 →
        tryOneRequest conn store = ({ conn with want_close := true }, store, false)) ∧
    (∀ (nstr : Nat) (rest : List Nat), k_max_msg < nstr → nstr < 2 ^ 32 →
        parseRequest (u32Bytes nstr ++ rest) = none) ∧
    (∀ (body : List Nat) (cmd : List Str), parseRequest body = some cmd →
        body.length ≤ k_max_msg → ∀ s ∈ cmd, s.length ≤ k_max_msg) := by
  refine ⟨tryOneRequest_oversize, parseRequest_big_count,
    fun body cmd hp hb s hs => ?_⟩
  have := parseRequest_strbound body cmd hp s hs
  omega

/-- Witness for C8: an oversize frame declaration, an oversize string
count, and a parsed one-string request. -/
theorem single_bound_three_ways_witness :
    tryOneRequest ⟨u32Bytes 4097 ++ [0], [], true, false, false⟩ [] =
      (⟨u32Bytes 4097 ++ [0], [], true, false, true⟩, [], false) ∧
    parseRequest (u32Bytes 4097 ++ [0]) = none ∧
    ([107] : Str).length ≤ k_max_msg :=
  ⟨single_bound_three_ways.1 ⟨u32Bytes 4097 ++ [0], [], true, false, false⟩ []
      4097 [0] rfl (by decide) (by decide),
   single_bound_three_ways.2.1 4097 [0] (by decide) (by decide),
   single_bound_three_ways.2.2 (u32Bytes 1 ++ (u32Bytes 1 ++ [107])) [[107]]
      (by decide) (by decide) [107] (by decide)⟩

/-- C6: the client's payload builder and the server's request parser are
mutually inverse. If `build_payload` accepts a command list (the size
pre-check passes), the produced body parses back to exactly that list;
conversely any body of wire bytes the server parses — it fits under
`k_max_msg`, as every body reaching the parser does — is rebuilt
byte-for-byte by re-encoding the parsed command list. -/
theorem payload_roundtrip :
    (∀ (cmd : List Str) (p : List Nat), build_payload cmd = some p →
        parseRequest p = some cmd) ∧
    (∀ (p : List Nat) (cmd : List Str), parseRequest p = some cmd →
        p.length ≤ k_max_msg → (∀ b ∈ p, b < 256) →
        build_payload cmd = some p) := by
  constructor
  · intro cmd p h
    unfold build_payload at h
    by_cases hf : payloadFits cmd 4 = true
    · rw [if_pos hf] at h
      simp only [Option.some.injEq] at h
      subst h
      obtain ⟨hb, hs⟩ := payloadFits_bounds cmd 4 (by norm_num [k_max_msg]) hf
      have hge := encodeStrings_length_ge cmd
      have hc1 : ¬ k_max_msg < cmd.length := by
        simp only [k_max_msg] at *
        omega
      have hc2 : cmd.length < 2 ^ 32 := by
        simp only [k_max_msg] at *
        omega
      unfold parseRequest
      simp only [readU32_u32Bytes _ _ hc2]
      rw [if_neg hc1]
      have hps := parseStrings_encodeStrings cmd []
        (fun s hs2 => lt_of_le_of_lt (hs s hs2) (by norm_num [k_max_msg]))
      rw [List.append_nil] at hps
      simp [hps]
    · rw [if_neg hf] at h
      simp at h
  · intro p cmd h hlen hb
    unfold parseRequest at h
    cases hU : readU32 p with
    | none => rw [hU] at h; simp at h
    | some q =>
        obtain ⟨nstr, rest⟩ := q
        simp only [hU] at h
        by_cases hn : k_max_msg < nstr
        · rw [if_pos hn] at h; simp at h
        · rw [if_neg hn] at h
          cases hP : parseStrings nstr rest with
          | none => simp [hP] at h
          | some w =>
              obtain ⟨ss, rest2⟩ := w
              simp only [hP] at h
              by_cases he : rest2 = ([] : List Nat)
              · rw [if_pos he] at h
                simp only [Option.some.injEq] at h
                subst h
                subst he
                obtain ⟨hdec, -⟩ := readU32_some_decomp p nstr rest hU hb
                have hbr : ∀ b ∈ rest, b < 256 := by
                  intro b hb2
                  exact hb b (by rw [hdec]; exact List.mem_append_right _ hb2)
                obtain ⟨henc, hlen2⟩ := parseStrings_bytes_encode nstr rest ss [] hP hbr
                rw [List.append_nil] at henc
                have hrl : rest.length + 4 = p.length := by
                  have := readU32_some_length p nstr rest hU
                  omega
                unfold build_payload
                rw [if_pos (payloadFits_of_total ss 4 (by rw [henc]; omega))]
                rw [hlen2, henc, ← hdec]
              · rw [if_neg he] at h; simp at h

/-- Witness for C6: the command list of a one-key `get`, encoded and
decoded both ways. -/
theorem payload_roundtrip_witness :
    parseRequest (u32Bytes 2 ++ encodeStrings [strGet, [107]]) = some [strGet, [107]] ∧
    build_payload [strGet, [107]] = some (u32Bytes 2 ++ encodeStrings [strGet, [107]]) :=
  ⟨payload_roundtrip.1 [strGet, [107]] (u32Bytes 2 ++ encodeStrings [strGet, [107]])
      (by decide),
   payload_roundtrip.2 (u32Bytes 2 ++ encodeStrings [strGet, [107]]) [strGet, [107]]
      (by decide) (by decide) (by decide)⟩

/-- C5: a single successful read delivering N complete, well-formed
request frames back to back (N at least 1) makes one pass of the
readable handler append exactly N response frames to the outgoing
buffer, one per request, in arrival order: the outgoing buffer gains the
flattened list of per-request response frames produced by dispatching
the bodies first to last (`runBodies`), whose length equals N. The
opportunistic flush is taken as would-block so the appended bytes stay
visible. -/
theorem pipelined_responses (conn : Connection) (store : KVStore)
    (bodies : List (List Nat))
    (hg : ∀ b ∈ bodies, GoodBody b) (hin : conn.incoming = [])
    (hne : bodies ≠ []) :
    handleReadable conn store (ReadResult.bytes ((bodies.map reqFrame).flatten))
        WriteResult.wouldBlock =
      ({ conn with
          incoming := [],
          outgoing := conn.outgoing ++ ((runBodies store bodies).2.map respFrame).flatten,
          want_read := false,
          want_write := true },
        (runBodies store bodies).1) ∧
    (runBodies store bodies).2.length = bodies.length := by
  have hcount : (runBodies store bodies).2.length = bodies.length :=
    runBodies_length store bodies (fun b hb => (hg b hb).2)
  refine ⟨?_, hcount⟩
  have hne2 : (bodies.map reqFrame).flatten ≠ [] := by
    obtain ⟨b0, rest0, rfl⟩ := List.exists_cons_of_ne_nil hne
    simp [reqFrame, u32Bytes]
  have hne3 : ((runBodies store bodies).2.map respFrame).flatten ≠ [] := by
    obtain ⟨b0, rest0, rfl⟩ := List.exists_cons_of_ne_nil hne
    obtain ⟨cmd, hcmd⟩ := Option.isSome_iff_exists.mp (hg b0 (by simp)).2
    simp [runBodies, hcmd, respFrame, u32Bytes]
  obtain ⟨inc, outg, wr, ww, wc⟩ := conn
  simp only at hin
  subst hin
  have hpl := processLoop_runBodies bodies (((bodies.map reqFrame).flatten).length)
      ⟨(bodies.map reqFrame).flatten, outg, wr, ww, wc⟩ store hg rfl
      (reqFrames_length_ge bodies)
  simp only [handleReadable, if_neg hne2, List.nil_append, hpl]
  have hne4 : ¬ (outg ++ ((runBodies store bodies).2.map respFrame).flatten = []) := by
    simp [List.append_eq_nil, hne3]
  rw [if_neg hne4]
  simp only [handleWritable, if_neg hne4]

/-- Witness for C5 at N = 2: two framed `get` requests for keys 107 and
108 against a store binding 107, delivered in one read. -/
theorem pipelined_responses_witness :
    handleReadable ⟨[], [], true, false, false⟩ [([107], [118])]
        (ReadResult.bytes
          (([u32Bytes 2 ++ u32Bytes 3 ++ strGet ++ u32Bytes 1 ++ [107],
             u32Bytes 2 ++ u32Bytes 3 ++ strGet ++ u32Bytes 1 ++ [108]].map
              reqFrame).flatten))
        WriteResult.wouldBlock =
      (⟨[],
        [] ++ ((runBodies [([107], [118])]
          [u32Bytes 2 ++ u32Bytes 3 ++ strGet ++ u32Bytes 1 ++ [107],
           u32Bytes 2 ++ u32Bytes 3 ++ strGet ++ u32Bytes 1 ++ [108]]).2.map
            respFrame).flatten,
        false, true, false⟩,
       (runBodies [([107], [118])]
          [u32Bytes 2 ++ u32Bytes 3 ++ strGet ++ u32Bytes 1 ++ [107],
           u32Bytes 2 ++ u32Bytes 3 ++ strGet ++ u32Bytes 1 ++ [108]]).1) ∧
    (runBodies [([107], [118])]
        [u32Bytes 2 ++ u32Bytes 3 ++ strGet ++ u32Bytes 1 ++ [107],
         u32Bytes 2 ++ u32Bytes 3 ++ strGet ++ u32Bytes 1 ++ [108]]).2.length = 2 :=
  pipelined_responses ⟨[], [], true, false, false⟩ [([107], [118])]
    [u32Bytes 2 ++ u32Bytes 3 ++ strGet ++ u32Bytes 1 ++ [107],
     u32Bytes 2 ++ u32Bytes 3 ++ strGet ++ u32Bytes 1 ++ [108]]
    (by decide) rfl (by decide)

/-- C9: wants-read and wants-write are never both set. The invariant
holds at construction — wants-read true, wants-write false — and is
preserved by every execution of the readable handler (whatever the read
and opportunistic-write outcomes, including paths that set wants-close)
and of the writable handler. -/
theorem flags_mutually_exclusive :
    (Connection.init.want_read = true ∧ Connection.init.want_write = false ∧
      FlagsExclusive Connection.init) ∧
    (∀ (conn : Connection) (store : KVStore) (r : ReadResult) (w : WriteResult),
      FlagsExclusive conn → FlagsExclusive (handleReadable conn store r w).1) ∧
    (∀ (conn : Connection) (w : WriteResult),
      FlagsExclusive conn → FlagsExclusive (handleWritable conn w)) := by
  have hw : ∀ (conn : Connection) (w : WriteResult),
      FlagsExclusive conn → FlagsExclusive (handleWritable conn w) := by
    intro conn w h
    unfold handleWritable
    by_cases h1 : conn.outgoing = []
    · simp [h1, FlagsExclusive]
    · rw [if_neg h1]
      cases w with
      | wouldBlock => exact h
      | writeErr => simpa [FlagsExclusive] using h
      | wrote n =>
          by_cases h2 : conn.outgoing.drop n = []
          · simp [h2, FlagsExclusive]
          · simpa [h2, FlagsExclusive] using h
  have hpl : ∀ (fuel : Nat) (c : Connection) (store : KVStore),
      FlagsExclusive c → FlagsExclusive (processLoop fuel c store).1 := by
    intro fuel c store h
    obtain ⟨hr, hwf⟩ := processLoop_flags fuel c store
    unfold FlagsExclusive at *
    rw [hr, hwf]
    exact h
  refine ⟨⟨rfl, rfl, by decide⟩, ?_, hw⟩
  intro conn store r w h
  cases r with
  | wouldBlock => exact h
  | readErr => simpa [handleReadable, FlagsExclusive] using h
  | bytes data =>
      by_cases hd : data = []
      · simpa [handleReadable, hd, FlagsExclusive] using h
      · simp only [handleReadable, if_neg hd]
        split
        · exact hpl _ _ _ h
        · exact hw _ w (by unfold FlagsExclusive; simp)

/-- Witness for C9: the readable handler run from the initial state on a
one-byte read that leaves an incomplete frame buffered. -/
theorem flags_mutually_exclusive_witness :
    FlagsExclusive
      (handleReadable Connection.init [] (ReadResult.bytes [0]) WriteResult.wouldBlock).1 :=
  flags_mutually_exclusive.2.1 Connection.init [] (ReadResult.bytes [0])
    WriteResult.wouldBlock (by decide)

/-- C10: for any accepted request (its body parses and fits under
`k_max_msg`) dispatched against a store whose values are all small
enough (an invariant that holds for the empty store and, by the last
conjunct, is preserved by every dispatch), the response frame laid down
by `appendResponse` carries a length field of exactly 4 plus the payload
length; that length is at most `k_max_msg`, so the synchronous client's
validation — reject lengths above `k_max_msg` or below 4 — accepts it. -/
theorem response_frames_fit (store : KVStore) (cmd : List Str) (body : List Nat)
    (outgoing : List Nat)
    (hp : parseRequest body = some cmd) (hb : body.length ≤ k_max_msg)
    (hst : ValuesLE store) :
    appendResponse outgoing (execCommand store cmd).2.status (execCommand store cmd).2.data
      = outgoing ++ u32Bytes (4 + (execCommand store cmd).2.data.length)
        ++ u32Bytes (execCommand store cmd).2.status
        ++ (execCommand store cmd).2.data ∧
    4 + (execCommand store cmd).2.data.length ≤ k_max_msg ∧
    clientAcceptsLen (4 + (execCommand store cmd).2.data.length) = true ∧
    ValuesLE (execCommand store cmd).1 := by
  have hcmd : ∀ s ∈ cmd, 8 + s.length ≤ k_max_msg := fun s hs =>
    le_trans (parseRequest_strbound body cmd hp s hs) hb
  obtain ⟨h1, h2⟩ := exec_preserves_values store cmd hst hcmd
  refine ⟨rfl, by omega, ?_, h1⟩
  have hx : ¬ k_max_msg < 4 + (execCommand store cmd).2.data.length := by omega
  have hy : ¬ 4 + (execCommand store cmd).2.data.length < 4 := by omega
  simp [clientAcceptsLen, hx, hy]

/-- Witness for C10: a `get` for the key bound in a one-entry store. -/
theorem response_frames_fit_witness :
    appendResponse []
        (execCommand [([107], [118])] [strGet, [107]]).2.status
        (execCommand [([107], [118])] [strGet, [107]]).2.data
      = [] ++ u32Bytes (4 + (execCommand [([107], [118])] [strGet, [107]]).2.data.length)
        ++ u32Bytes (execCommand [([107], [118])] [strGet, [107]]).2.status
        ++ (execCommand [([107], [118])] [strGet, [107]]).2.data ∧
    4 + (execCommand [([107], [118])] [strGet, [107]]).2.data.length ≤ k_max_msg ∧
    clientAcceptsLen
      (4 + (execCommand [([107], [118])] [strGet, [107]]).2.data.length) = true ∧
    ValuesLE (execCommand [([107], [118])] [strGet, [107]]).1 :=
  response_frames_fit [([107], [118])] [strGet, [107]]
    (u32Bytes 2 ++ u32Bytes 3 ++ strGet ++ u32Bytes 1 ++ [107]) []
    (by decide) (by decide) (by decide)
